import Mathlib

/-!
# EinsteinDB manifest record (`src/main.go`)

The source file declares one record type, `manifest`, whose fields carry
struct tags that drive the TOML manifest encoder.  The record declaration is
embedded as data: one `FieldDecl` per declared field, in declaration order,
with the source line, the Go field name, the Go type and the raw tag text.
Struct tags are read the way Go reads them (`reflect.StructTag.Lookup`) and
the `toml` value is split into options the way the imported encoder does.

The file ends inside the record declaration.  The serializer and the
dependency-closure builder of the design are not in it; they are modelled
from the spec, each such definition saying so in its comment.
-/

namespace EinsteinDB

/-! ## Struct tags -/

/-- Go types that occur in the `manifest` declaration. -/
inductive GoType where
  | string
  | stringSlice
  | bool
  | boolPtr
  | int
  | coverPtr
  | regexpPtr
  | regexpPtrSlice
  | stringIntMap
  deriving DecidableEq

/-- One field declaration of a Go struct: source line, field name, type and
the raw text of the struct tag between the backquotes. -/
structure FieldDecl where
  line : Nat
  name : String
  type : GoType
  tag : String
  deriving DecidableEq

/-- Drop leading spaces (first loop of `StructTag.Lookup`). -/
def skipSpaces : List Char → List Char
  | [] => []
  | c :: cs => if c.toNat = 32 then skipSpaces cs else c :: cs

/-- Characters that may stand in a tag key: above space, and none of colon,
double quote, DEL. -/
def isKeyChar (c : Char) : Bool :=
  decide (32 < c.toNat) && c.toNat != 58 && c.toNat != 34 && c.toNat != 127

/-- Scan a tag key: the longest run of key characters and what follows it. -/
def scanKey : List Char → List Char × List Char
  | [] => ([], [])
  | c :: cs =>
    if isKeyChar c then ((c :: (scanKey cs).1), (scanKey cs).2) else ([], c :: cs)

/-- Scan a quoted value after its opening quote: the text up to the closing
quote and what follows the closing quote; `none` when the quote is never
closed.  A backslash takes the next character with it. -/
def scanQuoted : List Char → Option (List Char × List Char)
  | [] => none
  | c :: cs =>
    if c.toNat = 34 then some ([], cs)
    else if c.toNat = 92 then
      match cs with
      | [] => none
      | e :: rest => (scanQuoted rest).map fun p => (c :: e :: p.1, p.2)
    else (scanQuoted cs).map fun p => (c :: p.1, p.2)

/-- Unquote a scanned value.  None of the tags of this file holds an escape
sequence; a value with a backslash is reported as not found. -/
def unquote (body : List Char) : Option (List Char) :=
  if body.any (fun c => c.toNat == 92) then none else some body

/-- The loop of `reflect.StructTag.Lookup` over the remaining tag text. -/
def lookupLoop (key : List Char) : Nat → List Char → Option (List Char)
  | 0, _ => none
  | fuel + 1, tag =>
    match skipSpaces tag with
    | [] => none
    | t :: ts =>
      match scanKey (t :: ts) with
      | ([], _) => none
      | (name, c1 :: c2 :: rest) =>
        if c1.toNat = 58 ∧ c2.toNat = 34 then
          match scanQuoted rest with
          | none => none
          | some (body, rest2) =>
            if name = key then unquote body else lookupLoop key fuel rest2
        else none
      | (_, _) => none

/-- The value a struct tag gives for `key`, with Go's conventional-format
rules: `StructTag.Lookup`. -/
def tagLookup (tag : String) (key : String) : Option String :=
  (lookupLoop key.data (tag.length + 1) tag.data).map String.mk

/-- The value for `key`, or the empty string: `StructTag.Get`. -/
def tagGet (tag : String) (key : String) : String :=
  (tagLookup tag key).getD ""

/-- Split at commas: `strings.Split(t, ",")`. -/
def splitComma : List Char → List (List Char)
  | [] => [[]]
  | c :: cs =>
    if c.toNat = 44 then [] :: splitComma cs
    else
      match splitComma cs with
      | [] => [[c]]
      | p :: ps => (c :: p) :: ps

/-- Options the encoder reads from a field's `toml` tag. -/
structure TagOptions where
  skip : Bool
  name : String
  omitempty : Bool
  omitzero : Bool
  deriving DecidableEq

/-- Read the `toml` tag of a field: `"-"` skips the field, otherwise the
first comma-separated part is the key name and the rest are options. -/
def getOptions (tag : String) : TagOptions :=
  let t := tagGet tag "toml"
  if t = "-" then { skip := true, name := "", omitempty := false, omitzero := false }
  else
    match splitComma t.data with
    | [] => { skip := false, name := "", omitempty := false, omitzero := false }
    | n :: opts =>
      { skip := false
        name := String.mk n
        omitempty := opts.any (fun o => decide (String.mk o = "omitempty"))
        omitzero := opts.any (fun o => decide (String.mk o = "omitzero")) }

/-- The manifest key of a field: the tag's name, or the Go field name when
the tag gives none. -/
def keyName (d : FieldDecl) : String :=
  if (getOptions d.tag).name = "" then d.name else (getOptions d.tag).name

/-- A field is emitted to the manifest unless its `toml` tag is `"-"`. -/
def emitted (d : FieldDecl) : Bool := !(getOptions d.tag).skip

/-- A field carries the omit-when-empty rule when its `toml` tag lists
`omitempty`. -/
def omitsWhenEmpty (d : FieldDecl) : Bool := (getOptions d.tag).omitempty

/-! ## The `manifest` declaration -/

/-- The fields of `type manifest struct` (lines 40-156 of `src/main.go`), in
declaration order, each with its tag text as written.  The declaration of
`BuildFlags` on the last line of the file breaks off inside its tag and is
not part of the table. -/
def manifestFields : List FieldDecl :=
  [ ⟨41, "Package", .string, "toml:\"package\""⟩,
    ⟨42, "Deps", .stringSlice, "toml:\"deps\""⟩,
    ⟨45, "GoFiles", .stringSlice, "toml:\"go-files,omitempty\", json:\"-\""⟩,
    ⟨46, "CgoFiles", .stringSlice, "toml:\"cgo-files,omitempty\", json:\"-\""⟩,
    ⟨48, "IgnoredGoFiles", .stringSlice, "toml:\"-\""⟩,
    ⟨50, "TestGoFiles", .stringSlice, "toml:\"test-go-files,omitempty\", json:\"-\""⟩,
    ⟨51, "XTestGoFiles", .stringSlice, "toml:\"x-test-go-files,omitempty\", json:\"-\""⟩,
    ⟨53, "IgnoredTestGoFiles", .stringSlice, "toml:\"-\""⟩,
    ⟨54, "IgnoredXTestGoFiles", .stringSlice, "toml:\"-\""⟩,
    ⟨56, "CFiles", .stringSlice, "toml:\"c-files\", json:\"-\""⟩,
    ⟨57, "IgnoredCFiles", .stringSlice, "toml:\"-\""⟩,
    ⟨59, "HFiles", .stringSlice, "toml:\"h-files\", json:\"-\""⟩,
    ⟨60, "IgnoredHFiles", .stringSlice, "toml:\"-\""⟩,
    ⟨62, "SFiles", .stringSlice, "toml:\"s-files\", json:\"-\""⟩,
    ⟨63, "IgnoredSFiles", .stringSlice, "toml:\"-\""⟩,
    ⟨65, "SwigFiles", .stringSlice, "toml:\"swig-files\", json:\"-\""⟩,
    ⟨66, "IgnoredSwigFiles", .stringSlice, "toml:\"-\""⟩,
    ⟨68, "SwigCXXFiles", .stringSlice, "toml:\"swig-cxx-files\", json:\"-\""⟩,
    ⟨69, "IgnoredSwigCXXFiles", .stringSlice, "toml:\"-\""⟩,
    ⟨71, "SysoFiles", .stringSlice, "toml:\"syso-files\", json:\"-\""⟩,
    ⟨73, "CgoCFLAGS", .stringSlice, "toml:\"cgo-cflags\", json:\",omitempty\""⟩,
    ⟨74, "CgoCPPFLAGS", .stringSlice, "toml:\"cgo-cppflags\", json:\",omitempty\""⟩,
    ⟨75, "CgoCXXFLAGS", .stringSlice, "toml:\"cgo-cxxflags\", json:\",omitempty\""⟩,
    ⟨76, "CgoFFLAGS", .stringSlice, "toml:\"cgo-fflags\", json:\",omitempty\""⟩,
    ⟨77, "CgoLDFLAGS", .stringSlice, "toml:\"cgo-ldflags\", json:\",omitempty\""⟩,
    ⟨78, "CgoPkgConfig", .stringSlice, "toml:\"cgo-pkg-config\", json:\",omitempty\""⟩,
    ⟨81, "Imports", .stringSlice, "toml:\"imports\""⟩,
    ⟨82, "Deps", .stringSlice, "toml:\"deps\""⟩,
    ⟨83, "TestImps", .stringSlice, "toml:\"test-imps\""⟩,
    ⟨84, "XTestImps", .stringSlice, "toml:\"x-test-imps\""⟩,
    ⟨87, "Incomplete", .bool, "toml:\"incomplete,omitempty\""⟩,
    ⟨90, "TestGoFiles", .stringSlice, "toml:\"test-go-files,omitempty\""⟩,
    ⟨91, "XTestGoFiles", .stringSlice, "toml:\"x-test-go-files,omitempty\""⟩,
    ⟨93, "TestImports", .stringSlice, "toml:\"test-imports,omitempty\""⟩,
    ⟨94, "XTestImports", .stringSlice, "toml:\"x-test-imports,omitempty\""⟩,
    ⟨95, "TestMainGoFile", .string, "toml:\"test-main-go-file,omitempty\""⟩,
    ⟨98, "Error", .boolPtr, "json:\",omitempty\""⟩,
    ⟨101, "BuildTags", .stringSlice, "toml:\"build-tags,omitempty\""⟩,
    ⟨104, "Cover", .coverPtr, "json:\",omitempty\" toml:\",omitempty\""⟩,
    ⟨114, "CoverMode", .string, "toml:\"cover-mode,omitempty\""⟩,
    ⟨115, "CoverVars", .bool, "toml:\"cover-vars,omitempty\""⟩,
    ⟨116, "CoverBlocks", .bool, "toml:\"cover-blocks,omitempty\""⟩,
    ⟨117, "CoverProfile", .string, "toml:\"cover-profile,omitempty\""⟩,
    ⟨118, "CoverPackages", .string, "toml:\"cover-packages,omitempty\""⟩,
    ⟨119, "CoverExclude", .string, "toml:\"cover-exclude,omitempty\""⟩,
    ⟨120, "CoverX", .bool, "toml:\"cover-x,omitempty\""⟩,
    ⟨121, "CoverHTML", .string, "toml:\"cover-html,omitempty\""⟩,
    ⟨122, "CoverHTMLDir", .string, "toml:\"cover-html-dir,omitempty\""⟩,
    ⟨123, "CoverHTMLOutput", .string, "toml:\"cover-html-output,omitempty\""⟩,
    ⟨128, "Version", .string, "toml:\"version,omitempty\""⟩,
    ⟨133, "GitRepo", .string, "toml:\"git-repo,omitempty\""⟩,
    ⟨134, "GitBranch", .string, "toml:\"git-branch,omitempty\""⟩,
    ⟨135, "GitPath", .string, "toml:\"git-path,omitempty\""⟩,
    ⟨136, "GitDepth", .int, "toml:\"git-depth,omitempty\""⟩,
    ⟨137, "GitVersion", .string, "toml:\"git-version,omitempty\""⟩,
    ⟨142, "EnvVars", .stringSlice, "toml:\"env-vars,omitempty\""⟩,
    ⟨147, "Build", .stringSlice, "toml:\"build,omitempty\""⟩,
    ⟨151, "Run", .stringSlice, "toml:\"run,omitempty\""⟩,
    ⟨156, "Test", .stringSlice, "toml:\"test,omitempty\""⟩ ]

/-- The fields of the anonymous struct behind `Cover` (lines 105-110). -/
def coverFields : List FieldDecl :=
  [ ⟨105, "Mode", .string, "json:\",omitempty\" toml:\",omitempty\""⟩,
    ⟨106, "Exclude", .regexpPtrSlice, "json:\",omitempty\" toml:\",omitempty\""⟩,
    ⟨107, "FileName", .regexpPtr, "json:\",omitempty\" toml:\",omitempty\""⟩,
    ⟨108, "Parallel", .bool, "json:\",omitempty\" toml:\",omitempty\""⟩,
    ⟨109, "ExcludeAll", .bool, "json:\",omitempty\" toml:\",omitempty\""⟩,
    ⟨110, "Labels", .stringIntMap,
      "json:\",omitempty,omitzero\" toml:\",omitempty,omitzero\""⟩ ]


/-- Names of the declared fields, in declaration order. -/
def fieldNames (fields : List FieldDecl) : List String := fields.map (·.name)

/-- Keys of the fields that are emitted, in declaration order. -/
def emittedKeys (fields : List FieldDecl) : List String :=
  (fields.filter emitted).map keyName

/-- Keys that more than one emitted declaration carries, each listed once. -/
def repeatedKeys (fields : List FieldDecl) : List String :=
  ((emittedKeys fields).filter fun k => decide (1 < (emittedKeys fields).count k)).eraseDups

/-- Keep the declarations whose name no declaration in `seen` or earlier in
the list has: the Go compiler takes the first declaration of a name as the
field and reports every later one as a redeclaration. -/
def firstDeclarationsFrom (seen : List String) : List FieldDecl → List FieldDecl
  | [] => []
  | d :: ds =>
    if d.name ∈ seen then firstDeclarationsFrom seen ds
    else d :: firstDeclarationsFrom (d.name :: seen) ds

/-- The first declaration of every field name. -/
def firstDeclarations (fields : List FieldDecl) : List FieldDecl :=
  firstDeclarationsFrom [] fields

/-! ## Field groups and layout order -/

/-- The field groups the serialization order is stated in. -/
inductive Group where
  | package
  | imports
  | deps
  | sourceFiles
  | buildTags
  | coverage
  | provenance
  | scripts
  deriving DecidableEq

/-- The source-file category fields of the record. -/
def categoryFields : List String :=
  ["GoFiles", "CgoFiles", "TestGoFiles", "XTestGoFiles", "CFiles", "HFiles", "SFiles",
   "SwigFiles", "SwigCXXFiles", "SysoFiles"]

/-- The ignored-file lists of the record. -/
def ignoredFields : List String :=
  ["IgnoredGoFiles", "IgnoredTestGoFiles", "IgnoredXTestGoFiles", "IgnoredCFiles",
   "IgnoredHFiles", "IgnoredSFiles", "IgnoredSwigFiles", "IgnoredSwigCXXFiles"]

/-- The coverage fields: the `Cover` group and the flat `Cover*` options. -/
def coverageFields : List String :=
  ["Cover", "CoverMode", "CoverVars", "CoverBlocks", "CoverProfile", "CoverPackages",
   "CoverExclude", "CoverX", "CoverHTML", "CoverHTMLDir", "CoverHTMLOutput"]

/-- The remote-repository fields (lines 133-137). -/
def provenanceFields : List String :=
  ["GitRepo", "GitBranch", "GitPath", "GitDepth", "GitVersion"]

/-- The script fields: `Build`, `Run`, `Test` (lines 147-156). -/
def scriptFields : List String := ["Build", "Run", "Test"]

/-- The group a field belongs to, by its Go name; fields outside the eight
groups (cgo flags, test imports, `Incomplete`, `Error`, `Version`, `EnvVars`
and the like) have none. -/
def groupOf (name : String) : Option Group :=
  if name = "Package" then some .package
  else if name = "Imports" then some .imports
  else if name = "Deps" then some .deps
  else if name ∈ categoryFields then some .sourceFiles
  else if name = "BuildTags" then some .buildTags
  else if name ∈ coverageFields then some .coverage
  else if name ∈ provenanceFields then some .provenance
  else if name ∈ scriptFields then some .scripts
  else none

/-- Position of a group in the order package, imports, deps, source-file
categories, build tags, coverage, provenance, scripts. -/
def statedRank : Group → Nat
  | .package => 0
  | .imports => 1
  | .deps => 2
  | .sourceFiles => 3
  | .buildTags => 4
  | .coverage => 5
  | .provenance => 6
  | .scripts => 7

/-- Position of a group in the order package, deps, source-file categories,
imports, build tags, coverage, provenance, scripts. -/
def declaredRank : Group → Nat
  | .package => 0
  | .deps => 1
  | .sourceFiles => 2
  | .imports => 3
  | .buildTags => 4
  | .coverage => 5
  | .provenance => 6
  | .scripts => 7

/-- Two declarations, `a` declared before `b`, agree with the group order
`rank` when `b` is not of a group strictly before the group of `a`; a field
outside the groups agrees with every order. -/
def inGroupOrder (rank : Group → Nat) (a b : FieldDecl) : Bool :=
  match groupOf a.name, groupOf b.name with
  | some g, some h => decide (rank g ≤ rank h)
  | _, _ => true

/-- The emitted fields of `fields` are laid out in the group order `rank`:
whenever one emitted field is declared before another, the later one is not
of a strictly earlier group.  Equivalently, of two emitted fields of
different groups the one of the earlier group is declared first. -/
def LaidOutBy (rank : Group → Nat) (fields : List FieldDecl) : Prop :=
  (fields.filter emitted).Pairwise (fun a b => inGroupOrder rank a b = true)

instance (rank : Group → Nat) (fields : List FieldDecl) : Decidable (LaidOutBy rank fields) :=
  inferInstanceAs (Decidable (List.Pairwise _ _))

/-- A category field has an ignored counterpart when the record declares a
field named `Ignored` followed by the category's name. -/
def hasIgnoredCounterpart (fields : List FieldDecl) (category : String) : Bool :=
  decide (("Ignored" ++ category) ∈ fieldNames fields)

/-! ## Record values -/

/-- Modelled from the spec: the type `regexpValue` is used by `Cover` but not
declared in the source file; the spec calls the two fields patterns, so a
value is carried as the text of its pattern. -/
abbrev regexpValue := String

/-- A value of the anonymous struct behind `Cover` (lines 104-111); `none`
stands for a nil slice, map or pointer. -/
structure CoverValue where
  Mode : String
  Exclude : Option (List (Option regexpValue))
  FileName : Option regexpValue
  Parallel : Bool
  ExcludeAll : Bool
  Labels : Option (List (String × Int))
  deriving DecidableEq

/-- A value of one of the Go types of the declaration; `none` stands for a
nil slice, map or pointer. -/
inductive Value where
  | string (s : String)
  | stringSlice (xs : Option (List String))
  | bool (b : Bool)
  | boolPtr (b : Option Bool)
  | int (n : Int)
  | regexpPtr (p : Option regexpValue)
  | regexpPtrSlice (ps : Option (List (Option regexpValue)))
  | stringIntMap (m : Option (List (String × Int)))
  | coverPtr (c : Option CoverValue)
  deriving DecidableEq

/-- The Go type of a value. -/
def Value.type : Value → GoType
  | .string _ => .string
  | .stringSlice _ => .stringSlice
  | .bool _ => .bool
  | .boolPtr _ => .boolPtr
  | .int _ => .int
  | .regexpPtr _ => .regexpPtr
  | .regexpPtrSlice _ => .regexpPtrSlice
  | .stringIntMap _ => .stringIntMap
  | .coverPtr _ => .coverPtr

/-- The zero value of a Go type. -/
def zeroValue : GoType → Value
  | .string => .string ""
  | .stringSlice => .stringSlice none
  | .bool => .bool false
  | .boolPtr => .boolPtr none
  | .int => .int 0
  | .regexpPtr => .regexpPtr none
  | .regexpPtrSlice => .regexpPtrSlice none
  | .stringIntMap => .stringIntMap none
  | .coverPtr => .coverPtr none

/-- A field is set when it holds something other than the zero value of its
type. -/
def isSet (v : Value) : Bool := decide (v ≠ zeroValue v.type)

/-- A struct value read by field name, as reflection reads it. -/
abbrev Record := String → Value

/-- A record is a value of the struct type `fields` declares: every declared
field holds a value of its declared type. -/
def WellTyped (fields : List FieldDecl) (r : Record) : Prop :=
  ∀ d ∈ fields, (r d.name).type = d.type

instance (fields : List FieldDecl) (r : Record) : Decidable (WellTyped fields r) :=
  inferInstanceAs (Decidable (∀ d ∈ fields, (r d.name).type = d.type))

/-- The declared type of the field `name`: that of its first declaration. -/
def typeOfField (fields : List FieldDecl) (name : String) : GoType :=
  match fields.find? (fun d => decide (d.name = name)) with
  | some d => d.type
  | none => .string

/-- The record with every field at its zero value. -/
def zeroRecord (fields : List FieldDecl) : Record :=
  fun name => zeroValue (typeOfField fields name)

/-- Assignment `r.name = v`. -/
def Record.set (r : Record) (name : String) (v : Value) : Record :=
  fun n => if n = name then v else r n

/-- The fields of a `Cover` value by name. -/
def coverRecord (c : CoverValue) : Record := fun name =>
  if name = "Mode" then .string c.Mode
  else if name = "Exclude" then .regexpPtrSlice c.Exclude
  else if name = "FileName" then .regexpPtr c.FileName
  else if name = "Parallel" then .bool c.Parallel
  else if name = "ExcludeAll" then .bool c.ExcludeAll
  else if name = "Labels" then .stringIntMap c.Labels
  else .string ""

/-- Which fields of a group are set, in the order of `names`. -/
def setPattern (r : Record) (names : List String) : List Bool :=
  names.map fun n => isSet (r n)

/-- A group is whole when its fields are all set or all unset. -/
def groupWhole (r : Record) (names : List String) : Prop :=
  (∀ n ∈ names, isSet (r n) = true) ∨ (∀ n ∈ names, isSet (r n) = false)

instance (r : Record) (names : List String) : Decidable (groupWhole r names) :=
  inferInstanceAs (Decidable (_ ∨ _))

/-- The names of the fields of `Cover`. -/
def coverGroupFields : List String := fieldNames coverFields

/-- What the comment on `Labels` (line 110) requires of a labels map: keys
are non-empty and hold neither `.` nor `*`, values are non-negative. -/
def labelsValid (m : List (String × Int)) : Bool :=
  m.all fun kv =>
    decide (kv.1 ≠ "") && kv.1.data.all (fun c => c.toNat != 46 && c.toNat != 42) &&
      decide (0 ≤ kv.2)

/-- The labels requirement on a record: when it carries a coverage group with
a labels map, that map is valid. -/
def recordLabelsValid (r : Record) : Bool :=
  match r "Cover" with
  | .coverPtr (some c) =>
    match c.Labels with
    | some m => labelsValid m
    | none => true
  | _ => true

/-- A record with one provenance field set: `GitRepo`. -/
def onlyRepoSet : Record :=
  (zeroRecord manifestFields).set "GitRepo" (.string "https://example.org/r.git")

/-- A coverage group with only `Mode` set. -/
def onlyModeSet : CoverValue :=
  { Mode := "set", Exclude := none, FileName := none, Parallel := false,
    ExcludeAll := false, Labels := none }

/-- A coverage group whose labels map holds a negative weight. -/
def negativeLabelCover : CoverValue :=
  { Mode := "set", Exclude := none, FileName := none, Parallel := false,
    ExcludeAll := false, Labels := some [("hot", -1)] }

/-- A record carrying `negativeLabelCover`. -/
def negativeLabelRecord : Record :=
  (zeroRecord manifestFields).set "Cover" (.coverPtr (some negativeLabelCover))

/-- The value of a provenance or coverage field that is set, or unset, as
`b` says. -/
def filled (t : GoType) (b : Bool) : Value :=
  if b then
    match t with
    | .string => .string "x"
    | .stringSlice => .stringSlice (some ["x"])
    | .bool => .bool true
    | .boolPtr => .boolPtr (some true)
    | .int => .int 1
    | .regexpPtr => .regexpPtr (some "x")
    | .regexpPtrSlice => .regexpPtrSlice (some [some "x"])
    | .stringIntMap => .stringIntMap (some [("x", 1)])
    | .coverPtr => .coverPtr (some onlyModeSet)
  else zeroValue t

/-- The zero record with the provenance fields set as the five flags say. -/
def provenanceFilled (b1 b2 b3 b4 b5 : Bool) : Record :=
  ((((((zeroRecord manifestFields).set "GitRepo" (filled .string b1)).set
    "GitBranch" (filled .string b2)).set "GitPath" (filled .string b3)).set
    "GitDepth" (filled .int b4)).set "GitVersion" (filled .string b5))

/-- The coverage group with its fields set as the six flags say. -/
def coverFilled (b1 b2 b3 b4 b5 b6 : Bool) : CoverValue :=
  { Mode := if b1 then "set" else ""
    Exclude := if b2 then some [some "x"] else none
    FileName := if b3 then some "x" else none
    Parallel := b4
    ExcludeAll := b5
    Labels := if b6 then some [("x", 1)] else none }

/-! ## Encoding -/

/-- A tag-driven encoder: it walks the declared fields in order, passes over
every field whose `toml` tag is `"-"`, and writes for each other field what
`render` gives for the declaration and the field's value. -/
def encodeWith {α : Type} (render : FieldDecl → Value → List α) :
    List FieldDecl → Record → List α
  | [], _ => []
  | d :: ds, r =>
    (if emitted d then render d (r d.name) else []) ++ encodeWith render ds r

/-- Two records differ at most in the fields named in `names`. -/
def agreeOutside (fields : List FieldDecl) (names : List String) (r1 r2 : Record) : Prop :=
  ∀ d ∈ fields, d.name ∉ names → r1 d.name = r2 d.name

instance (fields : List FieldDecl) (names : List String) (r1 r2 : Record) :
    Decidable (agreeOutside fields names r1 r2) :=
  inferInstanceAs (Decidable (∀ d ∈ fields, d.name ∉ names → r1 d.name = r2 d.name))

/-- One entry of the manifest of a record: a key with a plain value, or a
key with the rows of a nested group. -/
inductive Item where
  | value (key : String) (v : Value)
  | table (key : String) (rows : List (String × Value))
  deriving DecidableEq

/-- The key of an entry. -/
def Item.key : Item → String
  | .value k _ => k
  | .table k _ => k

/-- A nil slice, map or pointer: the value is absent. -/
def isAbsent : Value → Bool
  | .stringSlice none => true
  | .boolPtr none => true
  | .regexpPtr none => true
  | .regexpPtrSlice none => true
  | .stringIntMap none => true
  | .coverPtr none => true
  | _ => false

/-- Modelled from the spec: the Manifest Serializer (§4.4) is not in the
source file.  A value is empty in the sense of its omission rule when it is
the empty string, an empty sequence or map, false, zero or absent. -/
def isEmptyValue : Value → Bool
  | .string s => decide (s = "")
  | .stringSlice xs => decide (xs.getD [] = [])
  | .bool b => !b
  | .boolPtr b => b.isNone
  | .int n => decide (n = 0)
  | .regexpPtr p => p.isNone
  | .regexpPtrSlice ps => decide (ps.getD [] = [])
  | .stringIntMap m => decide (m.getD [] = [])
  | .coverPtr c => c.isNone

/-- Modelled from the spec: the Manifest Serializer (§4.4) is not in the
source file.  A field is left out when its value is absent, or when its tag
carries an omission rule and the value is empty; otherwise its key and value
are written. -/
def renderPlain (d : FieldDecl) (v : Value) : List (String × Value) :=
  if isAbsent v then []
  else if ((getOptions d.tag).omitempty || (getOptions d.tag).omitzero) && isEmptyValue v then []
  else [(keyName d, v)]

/-- Modelled from the spec: the Manifest Serializer (§4.4) is not in the
source file.  The rows of a coverage group. -/
def serializeCover (c : CoverValue) : List (String × Value) :=
  encodeWith renderPlain coverFields (coverRecord c)

/-- Modelled from the spec: the Manifest Serializer (§4.4) is not in the
source file.  The entry of a field of the record: none when the field is
omitted, a nested group for a present `Cover`, a plain key and value
otherwise. -/
def renderField (d : FieldDecl) (v : Value) : List Item :=
  if isAbsent v then []
  else if ((getOptions d.tag).omitempty || (getOptions d.tag).omitzero) && isEmptyValue v then []
  else
    match v with
    | .coverPtr (some c) => [.table (keyName d) (serializeCover c)]
    | w => [.value (keyName d) w]

/-- Modelled from the spec: the Manifest Serializer (§4.4) is not in the
source file.  The manifest entries of one record, fields in declaration
order. -/
def serialize (r : Record) : List Item :=
  encodeWith renderField manifestFields r

/-- The manifest holds a labels key: the coverage group is written and has a
row keyed `Labels`. -/
def labelsKeyWritten (out : List Item) : Bool :=
  out.any fun
    | .table k rows => decide (k = "Cover") && rows.any (fun kv => decide (kv.1 = "Labels"))
    | .value _ _ => false

/-- An encoder that writes the key and the value of every field it visits. -/
def renderAll (d : FieldDecl) (v : Value) : List (String × Value) := [(keyName d, v)]

/-- A record that differs from `onlyRepoSet` in ignored-file lists. -/
def withIgnoredFiles : Record :=
  (onlyRepoSet.set "IgnoredGoFiles" (.stringSlice (some ["gen.go"]))).set
    "IgnoredCFiles" (.stringSlice (some ["old.c"]))

/-! ## Dependency closure (spec §4.3)

The source file ends inside the record declaration; the closure builder the
spec describes is not in it and is modelled from the spec's algorithm. -/

/-- Modelled from the spec: the raw fact of one package (§4.1, §6), which the
source file does not declare: classified file names (category and name),
direct imports by scope, build tags and the incompleteness flag. -/
structure RawFact where
  sourceFiles : List (String × String)
  imports : List String
  testImports : List String
  externalTestImports : List String
  buildTags : List String
  incomplete : Bool
  deriving DecidableEq

/-- Modelled from the spec: the Manifest Record of the closure (§3), which
the closure builder fills; not in the source file. -/
structure ManifestRecord where
  package : String
  sourceFiles : List (String × String)
  imports : List String
  testImports : List String
  externalTestImports : List String
  deps : List String
  buildTags : List String
  incomplete : Bool
  deriving DecidableEq

/-- Modelled from the spec: the Fact Source Adapter (§4.1), not in the source
file, as the finite table of the packages the inspector can load. -/
abbrev FactSource := List (String × RawFact)

/-- Modelled from the spec: `fetch(packagePath)` (§4.1), not in the source
file; `none` is a `LookupError`. -/
def fetch (facts : FactSource) (path : String) : Option RawFact :=
  match facts with
  | [] => none
  | e :: rest => if e.1 = path then some e.2 else fetch rest path

/-- Modelled from the spec: the paths a raw fact lists: its imports, test
imports and external test imports. -/
def RawFact.allImports (f : RawFact) : List String :=
  f.imports ++ f.testImports ++ f.externalTestImports

/-- Modelled from the spec: collapse duplicates of a sequence, keeping the
first sight of every entry in place (§3, §4.3 step 3). -/
def dedupKeep {α : Type} [DecidableEq α] : List α → List α
  | [] => []
  | x :: xs => x :: (dedupKeep xs).filter (fun y => decide (y ≠ x))

/-- Modelled from the spec: union of two sequences, first-seen order kept and
duplicates collapsed (§4.3 step 3). -/
def unionKeep {α : Type} [DecidableEq α] (xs ys : List α) : List α :=
  dedupKeep (xs ++ ys)

/-- Modelled from the spec: the record of a fetched package before `deps` is
computed (§4.3 step 3). -/
def recordOf (path : String) (f : RawFact) : ManifestRecord :=
  { package := path
    sourceFiles := dedupKeep f.sourceFiles
    imports := dedupKeep f.imports
    testImports := dedupKeep f.testImports
    externalTestImports := dedupKeep f.externalTestImports
    deps := []
    buildTags := dedupKeep f.buildTags
    incomplete := f.incomplete }

/-- Modelled from the spec: the record of a package whose lookup failed:
incomplete, with empty file and import lists (§4.3 step 2). -/
def incompleteRecord (path : String) : ManifestRecord :=
  { package := path, sourceFiles := [], imports := [], testImports := [],
    externalTestImports := [], deps := [], buildTags := [], incomplete := true }

/-- Modelled from the spec: the paths step 4 of §4.3 enqueues for a record:
its imports, test imports and external test imports. -/
def ManifestRecord.allImports (r : ManifestRecord) : List String :=
  r.imports ++ r.testImports ++ r.externalTestImports

/-- Modelled from the spec: merging newly found facts into an existing record
of the same package: unions of the sequences, nothing overwritten (§4.3
step 3). -/
def mergeRecord (old new : ManifestRecord) : ManifestRecord :=
  { package := old.package
    sourceFiles := unionKeep old.sourceFiles new.sourceFiles
    imports := unionKeep old.imports new.imports
    testImports := unionKeep old.testImports new.testImports
    externalTestImports := unionKeep old.externalTestImports new.externalTestImports
    deps := unionKeep old.deps new.deps
    buildTags := unionKeep old.buildTags new.buildTags
    incomplete := old.incomplete || new.incomplete }

/-- Modelled from the spec: construct or merge (§4.3 step 3): a record of the
same package is merged in place, otherwise the new record is added. -/
def upsert (new : ManifestRecord) : List ManifestRecord → List ManifestRecord
  | [] => [new]
  | r :: rs =>
    if r.package = new.package then mergeRecord r new :: rs else r :: upsert new rs

/-- Modelled from the spec: a `LookupError` of the Fact Source Adapter
(§4.1, §7). -/
inductive LookupError where
  | notLoadable
  deriving DecidableEq

/-- Modelled from the spec: the builder's state while it walks (§4.3 step 1):
the visited set, the records and the errors so far. -/
structure WalkState where
  visited : List String
  records : List ManifestRecord
  errors : List (String × LookupError)
  deriving DecidableEq

/-- Modelled from the spec: the worklist loop of §4.3 (steps 1-5).  A popped
path that is visited is skipped; otherwise it is fetched, a failed lookup
leaves an incomplete record and an error and enqueues nothing, a fetched
fact is merged into the records and the imports of its record that are not
yet visited are enqueued.  `fuel` bounds the number of pops. -/
def walk (facts : FactSource) : Nat → List String → WalkState → WalkState
  | 0, _, st => st
  | _ + 1, [], st => st
  | fuel + 1, p :: work, st =>
    if p ∈ st.visited then walk facts fuel work st
    else
      match fetch facts p with
      | none =>
        walk facts fuel work
          { visited := p :: st.visited
            records := upsert (incompleteRecord p) st.records
            errors := st.errors ++ [(p, .notLoadable)] }
      | some f =>
        walk facts fuel
          (work ++ (recordOf p f).allImports.filter (fun q => decide (q ∉ p :: st.visited)))
          { visited := p :: st.visited
            records := upsert (recordOf p f) st.records
            errors := st.errors }

/-- Modelled from the spec: the number of paths the facts can enqueue: every
fact enqueues at most its imports, and is fetched at most once. -/
def enqueueBound (facts : FactSource) : Nat :=
  (facts.map fun e => e.2.allImports.length).sum

/-- Modelled from the spec: pops that drain the worklist from a single root:
the root and every path that can be enqueued. -/
def walkFuel (facts : FactSource) : Nat := enqueueBound facts + 1

/-- Modelled from the spec: the imports a record set gives for a path
(§4.3 step 6). -/
def importsOf (records : List ManifestRecord) (path : String) : List String :=
  match records.find? (fun r => decide (r.package = path)) with
  | some r => r.imports
  | none => []

/-- Modelled from the spec: iterative reachability over the records' imports
(§4.3 step 6): `seen` collects the paths reached, in the order reached. -/
def reach (records : List ManifestRecord) : Nat → List String → List String → List String
  | 0, _, seen => seen
  | _ + 1, [], seen => seen
  | fuel + 1, p :: work, seen =>
    if p ∈ seen then reach records fuel work seen
    else reach records fuel (work ++ importsOf records p) (seen ++ [p])

/-- Modelled from the spec: `deps` of a record (§4.3 step 6): everything
reachable from its imports over the records, its own path excluded. -/
def depsOf (records : List ManifestRecord) (r : ManifestRecord) : List String :=
  (reach records (r.imports.length + (records.map fun x => x.imports.length).sum + 1)
    r.imports []).filter (fun q => decide (q ≠ r.package))

/-- Lexicographic order of texts by character code. -/
def charsLt : List Char → List Char → Bool
  | [], [] => false
  | [], _ :: _ => true
  | _ :: _, [] => false
  | a :: as, b :: bs =>
    if a.toNat < b.toNat then true
    else if b.toNat < a.toNat then false
    else charsLt as bs

/-- Insert a path into a sorted list of paths. -/
def insertPath (p : String) : List String → List String
  | [] => [p]
  | q :: qs => if charsLt p.data q.data then p :: q :: qs else q :: insertPath p qs

/-- Sort paths (insertion sort). -/
def sortPaths : List String → List String
  | [] => []
  | p :: ps => insertPath p (sortPaths ps)

/-- Modelled from the spec: `ClosureResult` (§4.3). -/
structure ClosureResult where
  records : List ManifestRecord
  rootDeps : List String
  errors : List (String × LookupError)
  deriving DecidableEq

/-- Modelled from the spec: the failure of a closure build (§4.3, §7). -/
inductive BuildError where
  | RootUnresolvable
  deriving DecidableEq

instance : DecidableEq (Except BuildError ClosureResult) := fun a b =>
  match a, b with
  | .ok x, .ok y =>
    if h : x = y then isTrue (congrArg Except.ok h)
    else isFalse (fun e => h (Except.ok.inj e))
  | .error x, .error y =>
    if h : x = y then isTrue (congrArg Except.error h)
    else isFalse (fun e => h (Except.error.inj e))
  | .ok _, .error _ => isFalse (fun e => Except.noConfusion e)
  | .error _, .ok _ => isFalse (fun e => Except.noConfusion e)

/-- Modelled from the spec: `deps` of the record of `path`, empty when there
is none. -/
def depsAt (records : List ManifestRecord) (path : String) : List String :=
  match records.find? (fun r => decide (r.package = path)) with
  | some r => r.deps
  | none => []

/-- Modelled from the spec: `build(rootPath)` (§4.3), not in the source file:
fails when the root cannot be fetched; otherwise walks the worklist from the
root, then computes `deps` of every record and the sorted `rootDeps`. -/
def build (facts : FactSource) (rootPath : String) : Except BuildError ClosureResult :=
  match fetch facts rootPath with
  | none => .error .RootUnresolvable
  | some _ =>
    let st := walk facts (walkFuel facts) [rootPath] { visited := [], records := [], errors := [] }
    let records := st.records.map fun r => { r with deps := depsOf st.records r }
    .ok { records := records
          rootDeps := sortPaths (depsAt records rootPath)
          errors := st.errors }

/-- Modelled from the spec: an import edge: `p` was fetched and lists `q`
among its imports, test imports or external test imports. -/
def importEdge (facts : FactSource) (p q : String) : Prop :=
  ∃ f, fetch facts p = some f ∧ q ∈ f.allImports

/-- Modelled from the spec: `p` is reachable from `root` through import
edges. -/
def Reachable (facts : FactSource) (root p : String) : Prop :=
  Relation.ReflTransGen (importEdge facts) root p

/-- The package paths of the records, in order. -/
def recordPaths (records : List ManifestRecord) : List String :=
  records.map (·.package)

/-- A fact with the given imports and nothing else. -/
def importing (imports : List String) : RawFact :=
  { sourceFiles := [], imports := imports, testImports := [], externalTestImports := [],
    buildTags := [], incomplete := false }

/-- The facts of the first scenario of §8: `app` imports `lib/a` and
`lib/b`, and `lib/a` imports `lib/b`. -/
def diamondFacts : FactSource :=
  [("app", importing ["lib/a", "lib/b"]), ("lib/a", importing ["lib/b"]),
   ("lib/b", importing [])]

/-- The facts of the cycle scenario of §8: `lib/c` and `lib/d` import each
other and the root imports `lib/c`. -/
def cycleFacts : FactSource :=
  [("root", importing ["lib/c"]), ("lib/c", importing ["lib/d"]),
   ("lib/d", importing ["lib/c"])]

/-- The enqueue budget left: what the facts of the packages not yet visited
can still enqueue. -/
def unvisitedCost (facts : FactSource) (visited : List String) : Nat :=
  match facts with
  | [] => 0
  | e :: rest =>
    (if e.1 ∈ visited then 0 else e.2.allImports.length) + unvisitedCost rest visited

/-- The invariant of the worklist loop for the root `root`: record paths are
pairwise distinct, every visited path has a record, the root is visited or
waiting, and so is every import of a visited package. -/
def WalkInv (facts : FactSource) (root : String) (work : List String) (st : WalkState) : Prop :=
  (recordPaths st.records).Nodup ∧
  (∀ p ∈ st.visited, p ∈ recordPaths st.records) ∧
  (root ∈ st.visited ∨ root ∈ work) ∧
  (∀ p ∈ st.visited, ∀ q, importEdge facts p q → q ∈ st.visited ∨ q ∈ work)

/-- The emitted fields whose `toml` tag lists `omitempty`, by Go name. -/
def fieldsWithOmitRule (fields : List FieldDecl) : List String :=
  fieldNames ((fields.filter emitted).filter omitsWhenEmpty)

/-- The emitted fields whose `toml` tag does not list `omitempty`, by Go
name. -/
def fieldsWithoutOmitRule (fields : List FieldDecl) : List String :=
  fieldNames ((fields.filter emitted).filter fun d => !omitsWhenEmpty d)

/-- The declaration of `Deps` on line 42. -/
def depsDecl : FieldDecl := ⟨42, "Deps", .stringSlice, "toml:\"deps\""⟩

/-- The declaration of `GoFiles` on line 45. -/
def goFilesDecl : FieldDecl :=
  ⟨45, "GoFiles", .stringSlice, "toml:\"go-files,omitempty\", json:\"-\""⟩

/-- The declaration of `Imports` on line 81. -/
def importsDecl : FieldDecl := ⟨81, "Imports", .stringSlice, "toml:\"imports\""⟩

/-- The source lines of the emitted declarations that carry `key`. -/
def linesOfKey (fields : List FieldDecl) (key : String) : List Nat :=
  ((fields.filter emitted).filter fun d => decide (keyName d = key)).map (·.line)

/-- A record whose coverage group is present with an empty labels map. -/
def emptyLabelsRecord : Record :=
  (zeroRecord manifestFields).set "Cover"
    (.coverPtr (some { onlyModeSet with Labels := some [] }))

/-! ## The record declaration -/

/-- C1: the manifest keys of the emitted fields are not pairwise different:
`deps` is carried by the declarations on lines 42 and 82, `test-go-files` by
those on lines 50 and 90, `x-test-go-files` by those on lines 51 and 91, and
these are the only keys carried twice. -/
theorem manifest_keys_repeated :
    ¬ (emittedKeys manifestFields).Nodup ∧
    repeatedKeys manifestFields = ["deps", "test-go-files", "x-test-go-files"] ∧
    linesOfKey manifestFields "deps" = [42, 82] ∧
    linesOfKey manifestFields "test-go-files" = [50, 90] ∧
    linesOfKey manifestFields "x-test-go-files" = [51, 91] := by
  decide

theorem encodeWith_congr {α : Type} (render : FieldDecl → Value → List α)
    (fields : List FieldDecl) (r1 r2 : Record)
    (h : ∀ d ∈ fields, emitted d = true → render d (r1 d.name) = render d (r2 d.name)) :
    encodeWith render fields r1 = encodeWith render fields r2 := by
  induction fields with
  | nil => rfl
  | cons d ds ih =>
    simp only [encodeWith]
    rw [ih (fun e he => h e (List.mem_cons_of_mem _ he))]
    by_cases hd : emitted d = true
    · rw [h d (List.mem_cons_self _ _) hd]
    · simp [hd]

theorem emitted_not_ignored :
    ∀ d ∈ manifestFields, emitted d = true → d.name ∉ ignoredFields := by
  decide

/-- C2: every ignored-file list of the record is declared with the tag `"-"`
and so is passed over by the encoder; two records that differ only in their
ignored-file lists are encoded to the same output, whatever the encoder
writes for the fields it visits. -/
theorem ignored_lists_not_emitted {α : Type} (render : FieldDecl → Value → List α)
    (r1 r2 : Record) (h : agreeOutside manifestFields ignoredFields r1 r2) :
    (∀ n ∈ ignoredFields, n ∈ fieldNames manifestFields ∧
      ∀ d ∈ manifestFields, d.name = n → emitted d = false) ∧
    encodeWith render manifestFields r1 = encodeWith render manifestFields r2 := by
  refine ⟨by decide, ?_⟩
  apply encodeWith_congr
  intro d hd he
  rw [h d hd (emitted_not_ignored d hd he)]

/-- Witness of C2: two records that differ in `IgnoredGoFiles` and
`IgnoredCFiles` only; an encoder that writes every visited field gives the
same output for both. -/
theorem ignored_lists_not_emitted_witness :
    agreeOutside manifestFields ignoredFields onlyRepoSet withIgnoredFiles ∧
    onlyRepoSet "IgnoredGoFiles" ≠ withIgnoredFiles "IgnoredGoFiles" ∧
    encodeWith renderAll manifestFields onlyRepoSet =
      encodeWith renderAll manifestFields withIgnoredFiles :=
  ⟨by decide, by decide,
    (ignored_lists_not_emitted renderAll onlyRepoSet withIgnoredFiles (by decide)).2⟩

/-- C3 fails as stated: `Deps` (line 42) is a sequence-valued field that is
emitted under the key `deps`, and its tag carries no omit-when-empty rule. -/
theorem deps_lacks_omit_rule :
    depsDecl ∈ manifestFields ∧ depsDecl.type = GoType.stringSlice ∧
    emitted depsDecl = true ∧ keyName depsDecl = "deps" ∧
    omitsWhenEmpty depsDecl = false := by
  decide

/-- C3 as amended: the emitted fields that carry the omit-when-empty rule are
exactly those whose tag lists `omitempty`, named in the first list, together
with all six fields of `Cover`; the emitted fields of the second list carry
no such rule. -/
theorem omit_rule_carriers :
    fieldsWithOmitRule manifestFields =
      ["GoFiles", "CgoFiles", "TestGoFiles", "XTestGoFiles", "Incomplete", "TestGoFiles",
       "XTestGoFiles", "TestImports", "XTestImports", "TestMainGoFile", "BuildTags", "Cover",
       "CoverMode", "CoverVars", "CoverBlocks", "CoverProfile", "CoverPackages",
       "CoverExclude", "CoverX", "CoverHTML", "CoverHTMLDir", "CoverHTMLOutput", "Version",
       "GitRepo", "GitBranch", "GitPath", "GitDepth", "GitVersion", "EnvVars", "Build",
       "Run", "Test"] ∧
    fieldsWithoutOmitRule manifestFields =
      ["Package", "Deps", "CFiles", "HFiles", "SFiles", "SwigFiles", "SwigCXXFiles",
       "SysoFiles", "CgoCFLAGS", "CgoCPPFLAGS", "CgoCXXFLAGS", "CgoFFLAGS", "CgoLDFLAGS",
       "CgoPkgConfig", "Imports", "Deps", "TestImps", "XTestImps", "Error"] ∧
    fieldsWithOmitRule coverFields = fieldNames coverFields := by
  decide

/-- C4 fails as stated: `Imports` (line 81) is of the group the stated order
puts second and `GoFiles` (line 45) of the group it puts fourth, yet
`GoFiles` is declared first; the declaration is not laid out in the stated
order. -/
theorem stated_order_violated :
    goFilesDecl ∈ manifestFields ∧ importsDecl ∈ manifestFields ∧
    emitted goFilesDecl = true ∧ emitted importsDecl = true ∧
    groupOf importsDecl.name = some Group.imports ∧
    groupOf goFilesDecl.name = some Group.sourceFiles ∧
    statedRank Group.imports < statedRank Group.sourceFiles ∧
    goFilesDecl.line < importsDecl.line ∧
    ¬ LaidOutBy statedRank manifestFields := by
  decide

/-- C4 as amended: taking each field at its first declaration, the emitted
fields are laid out in the order package, deps, source-file categories,
imports, build tags, coverage, provenance, scripts: of two fields of
different groups the one of the earlier group is declared first. -/
theorem declared_group_order :
    LaidOutBy declaredRank (firstDeclarations manifestFields) := by
  decide

/-- C5 fails as stated: the record with only `GitRepo` set is a value of the
record type whose provenance group is neither fully set nor fully unset, and
a coverage group with only `Mode` set is a value of the `Cover` struct. -/
theorem half_filled_group_admitted :
    WellTyped manifestFields onlyRepoSet ∧
    ¬ groupWhole onlyRepoSet provenanceFields ∧
    WellTyped coverFields (coverRecord onlyModeSet) ∧
    ¬ groupWhole (coverRecord onlyModeSet) coverGroupFields := by
  decide

/-- C5 as amended: the provenance fields are five independent fields of the
flat record and the fields of a present coverage group are independent too:
for every choice of which of them are set there is a value of the record
type with exactly those set. -/
theorem optional_groups_fill_independently :
    (∀ b1 b2 b3 b4 b5 : Bool, ∃ r : Record, WellTyped manifestFields r ∧
      setPattern r provenanceFields = [b1, b2, b3, b4, b5]) ∧
    (∀ b1 b2 b3 b4 b5 b6 : Bool, ∃ r : Record, ∃ c : CoverValue,
      WellTyped manifestFields r ∧ r "Cover" = Value.coverPtr (some c) ∧
      WellTyped coverFields (coverRecord c) ∧
      setPattern (coverRecord c) coverGroupFields = [b1, b2, b3, b4, b5, b6]) := by
  constructor
  · intro b1 b2 b3 b4 b5
    refine ⟨provenanceFilled b1 b2 b3 b4 b5, ?_⟩
    revert b1 b2 b3 b4 b5
    decide
  · intro b1 b2 b3 b4 b5 b6
    refine ⟨(zeroRecord manifestFields).set "Cover"
      (.coverPtr (some (coverFilled b1 b2 b3 b4 b5 b6))), coverFilled b1 b2 b3 b4 b5 b6, ?_⟩
    revert b1 b2 b3 b4 b5 b6
    decide

/-- C6: a record whose coverage labels map holds the weight `-1` is a value
of the record type: `map[string]int` admits it although the comment on
`Labels` requires non-negative weights. -/
theorem negative_label_weight_admitted :
    WellTyped manifestFields negativeLabelRecord ∧
    WellTyped coverFields (coverRecord negativeLabelCover) ∧
    negativeLabelRecord "Cover" = Value.coverPtr (some negativeLabelCover) ∧
    negativeLabelCover.Labels = some [("hot", -1)] ∧
    recordLabelsValid negativeLabelRecord = false ∧
    labelsValid [("hot", 1), ("cold", 0)] = true ∧
    labelsValid [("", 1)] = false ∧ labelsValid [("a.b", 1)] = false ∧
    labelsValid [("a*", 1)] = false := by
  decide

/-- C8 fails as stated: `CgoFiles` and `SysoFiles` are category fields of the
record and the record declares no `IgnoredCgoFiles` and no
`IgnoredSysoFiles`. -/
theorem category_without_ignored_counterpart :
    "CgoFiles" ∈ fieldNames manifestFields ∧ "SysoFiles" ∈ fieldNames manifestFields ∧
    "IgnoredCgoFiles" ∉ fieldNames manifestFields ∧
    "IgnoredSysoFiles" ∉ fieldNames manifestFields ∧
    hasIgnoredCounterpart manifestFields "CgoFiles" = false ∧
    hasIgnoredCounterpart manifestFields "SysoFiles" = false := by
  decide

/-- C8 as amended: every category field is declared; eight of them (GoFiles,
TestGoFiles, XTestGoFiles, CFiles, HFiles, SFiles, SwigFiles, SwigCXXFiles)
have an ignored counterpart and these counterparts are all the ignored-file
lists of the record; CgoFiles and SysoFiles have none. -/
theorem ignored_counterparts :
    (categoryFields.filter fun n => decide (n ∈ fieldNames manifestFields)) = categoryFields ∧
    categoryFields.filter (hasIgnoredCounterpart manifestFields) =
      ["GoFiles", "TestGoFiles", "XTestGoFiles", "CFiles", "HFiles", "SFiles", "SwigFiles",
       "SwigCXXFiles"] ∧
    (categoryFields.filter fun n => !hasIgnoredCounterpart manifestFields n) =
      ["CgoFiles", "SysoFiles"] ∧
    ((categoryFields.filter (hasIgnoredCounterpart manifestFields)).map
      fun n => "Ignored" ++ n) = ignoredFields := by
  decide

/-! ## The closure builder: loop invariant and fuel -/

theorem unvisitedCost_nil (facts : FactSource) :
    unvisitedCost facts [] = enqueueBound facts := by
  induction facts with
  | nil => rfl
  | cons e rest ih => simp [unvisitedCost, enqueueBound, ih] at *; 

theorem unvisitedCost_mono (facts : FactSource) (p : String) (visited : List String) :
    unvisitedCost facts (p :: visited) ≤ unvisitedCost facts visited := by
  induction facts with
  | nil => simp [unvisitedCost]
  | cons e rest ih =>
    simp only [unvisitedCost]
    by_cases h1 : e.1 ∈ visited
    · have h2 : e.1 ∈ p :: visited := List.mem_cons_of_mem _ h1
      simp [h1, h2, ih]
    · by_cases h2 : e.1 ∈ p :: visited
      · simp only [h1, h2, if_true, if_false]; omega
      · simp only [h1, h2, if_false]; omega

theorem unvisitedCost_fetch (facts : FactSource) (p : String) (f : RawFact)
    (visited : List String) (hf : fetch facts p = some f) (hp : p ∉ visited) :
    f.allImports.length + unvisitedCost facts (p :: visited) ≤ unvisitedCost facts visited := by
  induction facts with
  | nil => simp [fetch] at hf
  | cons e rest ih =>
    simp only [fetch] at hf
    simp only [unvisitedCost]
    by_cases he : e.1 = p
    · simp only [he, if_true, Option.some.injEq] at hf
      have h2 : e.1 ∈ p :: visited := by simp [he]
      have h1 : e.1 ∉ visited := by simpa [he] using hp
      have hm := unvisitedCost_mono rest p visited
      simp only [h1, h2, if_true, if_false, hf]
      omega
    · simp only [he, if_false] at hf
      have ih2 := ih hf
      by_cases h1 : e.1 ∈ visited
      · have h2 : e.1 ∈ p :: visited := List.mem_cons_of_mem _ h1
        simp only [h1, h2, if_true]; omega
      · have h2 : e.1 ∉ p :: visited := by
          simp only [List.mem_cons, not_or]; exact ⟨he, h1⟩
        simp only [h1, h2, if_false]; omega

theorem mem_dedupKeep {α : Type} [DecidableEq α] (x : α) (l : List α) :
    x ∈ dedupKeep l ↔ x ∈ l := by
  induction l with
  | nil => simp [dedupKeep]
  | cons y ys ih =>
    simp only [dedupKeep, List.mem_cons, List.mem_filter, decide_eq_true_eq, ih]
    by_cases h : x = y <;> simp [h]

theorem length_dedupKeep {α : Type} [DecidableEq α] (l : List α) :
    (dedupKeep l).length ≤ l.length := by
  induction l with
  | nil => simp [dedupKeep]
  | cons y ys ih =>
    simp only [dedupKeep, List.length_cons]
    have := List.length_filter_le (fun z => decide (z ≠ y)) (dedupKeep ys)
    omega

theorem mem_allImports_recordOf (p q : String) (f : RawFact) :
    q ∈ (recordOf p f).allImports ↔ q ∈ f.allImports := by
  simp [ManifestRecord.allImports, RawFact.allImports, recordOf, mem_dedupKeep]

theorem length_allImports_recordOf (p : String) (f : RawFact) :
    (recordOf p f).allImports.length ≤ f.allImports.length := by
  have h1 := length_dedupKeep f.imports
  have h2 := length_dedupKeep f.testImports
  have h3 := length_dedupKeep f.externalTestImports
  simp only [ManifestRecord.allImports, RawFact.allImports, recordOf, List.length_append]
  omega

theorem recordPaths_upsert (new : ManifestRecord) (rs : List ManifestRecord) :
    recordPaths (upsert new rs) =
      if new.package ∈ recordPaths rs then recordPaths rs
      else recordPaths rs ++ [new.package] := by
  induction rs with
  | nil => simp [upsert, recordPaths]
  | cons r rs ih =>
    simp only [upsert]
    by_cases h : r.package = new.package
    · simp [h, recordPaths, mergeRecord]
    · have h2 : ¬ new.package = r.package := fun e => h e.symm
      simp only [recordPaths] at ih ⊢
      simp only [h, if_false, List.map_cons, List.mem_cons, h2, false_or, ih]
      split <;> simp

theorem recordPaths_upsert_nodup (new : ManifestRecord) (rs : List ManifestRecord)
    (h : (recordPaths rs).Nodup) : (recordPaths (upsert new rs)).Nodup := by
  rw [recordPaths_upsert]
  split
  · exact h
  · rename_i hn
    exact List.Nodup.append h (List.nodup_singleton _) (by simpa using hn)

theorem mem_recordPaths_upsert (new : ManifestRecord) (rs : List ManifestRecord) (p : String) :
    p ∈ recordPaths (upsert new rs) ↔ p = new.package ∨ p ∈ recordPaths rs := by
  rw [recordPaths_upsert]
  split
  · rename_i hm
    constructor
    · intro h; exact Or.inr h
    · rintro (h | h)
      · rw [h]; exact hm
      · exact h
  · simp [or_comm]

theorem walk_inv (facts : FactSource) (root : String) :
    ∀ (fuel : Nat) (work : List String) (st : WalkState),
      work.length + unvisitedCost facts st.visited ≤ fuel →
      WalkInv facts root work st → WalkInv facts root [] (walk facts fuel work st) := by
  intro fuel
  induction fuel with
  | zero =>
    intro work st hb hinv
    have hw : work = [] := by
      cases work with
      | nil => rfl
      | cons a w => simp at hb
    subst hw
    simpa [walk] using hinv
  | succ fuel ih =>
    intro work st hb hinv
    cases work with
    | nil => simpa [walk] using hinv
    | cons p work =>
      obtain ⟨hnd, hvis, hroot, hedge⟩ := hinv
      simp only [List.length_cons] at hb
      by_cases hp : p ∈ st.visited
      · simp only [walk, hp, if_true]
        apply ih work st (by omega)
        refine ⟨hnd, hvis, ?_, ?_⟩
        · rcases hroot with h | h
          · exact Or.inl h
          · rcases List.mem_cons.mp h with h | h
            · exact Or.inl (h ▸ hp)
            · exact Or.inr h
        · intro a ha q hq
          rcases hedge a ha q hq with h | h
          · exact Or.inl h
          · rcases List.mem_cons.mp h with h | h
            · exact Or.inl (h ▸ hp)
            · exact Or.inr h
      · simp only [walk, hp, if_false]
        cases hf : fetch facts p with
        | none =>
          simp only
          apply ih
          · have := unvisitedCost_mono facts p st.visited
            simp only; omega
          · refine ⟨recordPaths_upsert_nodup _ _ hnd, ?_, ?_, ?_⟩
            · intro a ha
              simp only [List.mem_cons] at ha
              rw [mem_recordPaths_upsert]
              rcases ha with h | h
              · exact Or.inl (by simp [h, incompleteRecord])
              · exact Or.inr (hvis a h)
            · rcases hroot with h | h
              · exact Or.inl (List.mem_cons_of_mem _ h)
              · rcases List.mem_cons.mp h with h | h
                · exact Or.inl (by simp [h])
                · exact Or.inr h
            · intro a ha q hq
              simp only [List.mem_cons] at ha
              rcases ha with h | h
              · obtain ⟨f, hf2, _⟩ := hq
                rw [h, hf] at hf2
                exact absurd hf2 (by simp)
              · rcases hedge a h q hq with h2 | h2
                · exact Or.inl (List.mem_cons_of_mem _ h2)
                · rcases List.mem_cons.mp h2 with h3 | h3
                  · exact Or.inl (by simp [h3])
                  · exact Or.inr h3
        | some f =>
          simp only
          apply ih
          · have h1 := unvisitedCost_fetch facts p f st.visited hf hp
            have h2 : ((recordOf p f).allImports.filter
                (fun q => decide (q ∉ p :: st.visited))).length
                ≤ (recordOf p f).allImports.length := List.length_filter_le _ _
            have h3 := length_allImports_recordOf p f
            simp only [List.length_append]; omega
          · refine ⟨recordPaths_upsert_nodup _ _ hnd, ?_, ?_, ?_⟩
            · intro a ha
              simp only [List.mem_cons] at ha
              rw [mem_recordPaths_upsert]
              rcases ha with h | h
              · exact Or.inl (by simp [h, recordOf])
              · exact Or.inr (hvis a h)
            · rcases hroot with h | h
              · exact Or.inl (List.mem_cons_of_mem _ h)
              · rcases List.mem_cons.mp h with h | h
                · exact Or.inl (by simp [h])
                · exact Or.inr (List.mem_append_left _ h)
            · intro a ha q hq
              simp only [List.mem_cons] at ha
              rcases ha with h | h
              · obtain ⟨f2, hf2, hq2⟩ := hq
                rw [h, hf] at hf2
                simp only [Option.some.injEq] at hf2
                subst hf2
                by_cases hqv : q ∈ p :: st.visited
                · exact Or.inl hqv
                · refine Or.inr (List.mem_append_right _ ?_)
                  simp only [List.mem_filter, decide_eq_true_eq]
                  exact ⟨(mem_allImports_recordOf p q f).mpr hq2, hqv⟩
              · rcases hedge a h q hq with h2 | h2
                · exact Or.inl (List.mem_cons_of_mem _ h2)
                · rcases List.mem_cons.mp h2 with h3 | h3
                  · exact Or.inl (by simp [h3])
                  · exact Or.inr (List.mem_append_left _ h3)

theorem reachable_visited (facts : FactSource) (root : String) (st : WalkState)
    (hinv : WalkInv facts root [] st) (p : String) (hp : Reachable facts root p) :
    p ∈ st.visited := by
  obtain ⟨_, _, hroot, hedge⟩ := hinv
  induction hp with
  | refl =>
    rcases hroot with h | h
    · exact h
    · simp at h
  | tail _ hbc ih =>
    rcases hedge _ ih _ hbc with h | h
    · exact h
    · simp at h

theorem walk_from_root (facts : FactSource) (root : String) :
    WalkInv facts root []
      (walk facts (walkFuel facts) [root] { visited := [], records := [], errors := [] }) := by
  apply walk_inv
  · simp [unvisitedCost_nil, walkFuel]; omega
  · refine ⟨by simp [recordPaths], by simp, Or.inr (by simp), by simp⟩

theorem recordPaths_map_deps (rs : List ManifestRecord) (g : ManifestRecord → List String) :
    recordPaths (rs.map fun r => { r with deps := g r }) = recordPaths rs := by
  simp [recordPaths, List.map_map, Function.comp_def]

/-! ## Omission of an empty labels map -/

theorem any_encodeWith {α : Type} (render : FieldDecl → Value → List α) (P : α → Bool)
    (fields : List FieldDecl) (r : Record)
    (h : ∀ d ∈ fields, (render d (r d.name)).any P = false) :
    (encodeWith render fields r).any P = false := by
  induction fields with
  | nil => rfl
  | cons d ds ih =>
    simp only [encodeWith, List.any_append, Bool.or_eq_false_iff]
    refine ⟨?_, ih (fun e he => h e (List.mem_cons_of_mem _ he))⟩
    by_cases hd : emitted d = true
    · simpa [hd] using h d (List.mem_cons_self _ _)
    · simp [hd]

theorem labels_decl_omits :
    ∀ d ∈ coverFields, (keyName d = "Labels" ∨ d.name = "Labels") →
      d.name = "Labels" ∧ (getOptions d.tag).omitempty = true := by
  decide

theorem cover_key_decl :
    ∀ d ∈ manifestFields, keyName d = "Cover" → d.name = "Cover" := by
  decide

theorem coverRecord_labels (c : CoverValue) :
    coverRecord c "Labels" = Value.stringIntMap c.Labels := by
  simp [coverRecord]

theorem renderPlain_empty_labels (d : FieldDecl) (m : Option (List (String × Int)))
    (hd : (getOptions d.tag).omitempty = true) (hm : m = none ∨ m = some []) :
    renderPlain d (Value.stringIntMap m) = [] := by
  rcases hm with h | h <;> subst h <;> simp [renderPlain, isAbsent, isEmptyValue, hd]

theorem serializeCover_no_labels (c : CoverValue) (he : c.Labels = none ∨ c.Labels = some []) :
    (serializeCover c).any (fun kv => decide (kv.1 = "Labels")) = false := by
  apply any_encodeWith
  intro d hd
  by_cases hk : keyName d = "Labels"
  · obtain ⟨hn, ho⟩ := labels_decl_omits d hd (Or.inl hk)
    rw [hn, coverRecord_labels, renderPlain_empty_labels d _ ho he]
    rfl
  · unfold renderPlain
    split
    · rfl
    · split
      · rfl
      · simp [hk]

theorem coverRecord_other (c : CoverValue) (m : Option (List (String × Int))) (n : String)
    (hn : n ≠ "Labels") : coverRecord { c with Labels := m } n = coverRecord c n := by
  simp [coverRecord, hn]

theorem serializeCover_empty_labels (c : CoverValue)
    (he : c.Labels = none ∨ c.Labels = some []) :
    serializeCover c = serializeCover { c with Labels := none } := by
  apply encodeWith_congr
  intro d hd _
  by_cases hn : d.name = "Labels"
  · obtain ⟨_, ho⟩ := labels_decl_omits d hd (Or.inr hn)
    rw [hn, coverRecord_labels, coverRecord_labels,
      renderPlain_empty_labels d _ ho he, renderPlain_empty_labels d _ ho (Or.inl rfl)]
  · rw [coverRecord_other c none d.name hn]

/-- C7: for every record whose coverage group is present with an empty or nil
labels map, the serialized manifest holds no labels key, and the output is
the one of the same record with the labels map absent. -/
theorem empty_labels_not_written (r : Record) (c : CoverValue)
    (hc : r "Cover" = Value.coverPtr (some c))
    (he : c.Labels = none ∨ c.Labels = some []) :
    labelsKeyWritten (serialize r) = false ∧
    serialize r =
      serialize (r.set "Cover" (Value.coverPtr (some { c with Labels := none }))) := by
  constructor
  · apply any_encodeWith
    intro d hd
    cases hv : r d.name with
    | coverPtr o =>
      cases o with
      | none => simp [renderField, isAbsent]
      | some c2 =>
        by_cases hk : keyName d = "Cover"
        · have hn := cover_key_decl d hd hk
          rw [hn, hc] at hv
          simp only [Value.coverPtr.injEq, Option.some.injEq] at hv
          subst hv
          have hno := serializeCover_no_labels c he
          simp only [renderField, isAbsent, isEmptyValue, Option.isNone_some, Bool.and_false]
          simp [hno]
        · simp [renderField, isAbsent, isEmptyValue, hk]
    | string s => unfold renderField; split_ifs <;> simp
    | stringSlice xs => unfold renderField; split_ifs <;> simp
    | bool b => unfold renderField; split_ifs <;> simp
    | boolPtr b => unfold renderField; split_ifs <;> simp
    | int n => unfold renderField; split_ifs <;> simp
    | regexpPtr q => unfold renderField; split_ifs <;> simp
    | regexpPtrSlice qs => unfold renderField; split_ifs <;> simp
    | stringIntMap m => unfold renderField; split_ifs <;> simp
  · apply encodeWith_congr
    intro d hd _
    by_cases hn : d.name = "Cover"
    · rw [hn, hc]
      simp [Record.set, renderField, isAbsent, isEmptyValue,
        ← serializeCover_empty_labels c he]
    · simp [Record.set, hn]

/-- Witness of C7: a record whose coverage group has `Mode` set and an empty
labels map. -/
theorem empty_labels_not_written_witness :
    emptyLabelsRecord "Cover" =
      Value.coverPtr (some { onlyModeSet with Labels := some [] }) ∧
    labelsKeyWritten (serialize emptyLabelsRecord) = false ∧
    serialize emptyLabelsRecord =
      serialize (emptyLabelsRecord.set "Cover" (Value.coverPtr (some onlyModeSet))) :=
  ⟨by decide,
    empty_labels_not_written emptyLabelsRecord { onlyModeSet with Labels := some [] }
      (by decide) (Or.inr rfl)⟩

/-! ## The closure build -/

/-- The first scenario of §8: three records, `deps` of `app` is `lib/a`,
`lib/b` and `deps` of `lib/a` is `lib/b`. -/
theorem scenario_diamond :
    (build diamondFacts "app").toOption.map (fun res =>
        (res.records.map (fun r => (r.package, r.deps)), res.rootDeps, res.errors)) =
      some ([("app", ["lib/a", "lib/b"]), ("lib/a", ["lib/b"]), ("lib/b", [])],
        ["lib/a", "lib/b"], []) := by
  decide

/-- The cycle scenario of §8: the build ends, `deps` of `lib/c` is `lib/d`
and `deps` of `lib/d` is `lib/c`. -/
theorem scenario_cycle :
    (build cycleFacts "root").toOption.map (fun res =>
        (res.records.map (fun r => (r.package, r.deps)), res.rootDeps, res.errors)) =
      some ([("root", ["lib/c", "lib/d"]), ("lib/c", ["lib/d"]), ("lib/d", ["lib/c"])],
        ["lib/c", "lib/d"], []) := by
  decide

/-- The failure scenarios of §8: a missing import leaves an incomplete record
and one error; a missing root fails the build. -/
theorem scenario_lookup_errors :
    (build [("app", importing ["lib/missing"])] "app").toOption.map (fun res =>
        (res.records.map (fun r => (r.package, r.incomplete)), res.errors)) =
      some ([("app", false), ("lib/missing", true)],
        [("lib/missing", LookupError.notLoadable)]) ∧
    build [("app", importing ["lib/missing"])] "lib/missing" =
      Except.error BuildError.RootUnresolvable := by
  decide

/-- C9: when the root can be fetched the closure build returns a result, and
in it no record lists its own package path among its `deps`, whatever cycles
the import graph has. -/
theorem deps_excludes_own_path (facts : FactSource) (root : String)
    (hroot : (fetch facts root).isSome = true) :
    ∃ res, build facts root = Except.ok res ∧ ∀ r ∈ res.records, r.package ∉ r.deps := by
  unfold build
  cases hf : fetch facts root with
  | none => simp [hf] at hroot
  | some f =>
    refine ⟨_, rfl, ?_⟩
    intro r hr
    simp only [List.mem_map] at hr
    obtain ⟨r0, _, rfl⟩ := hr
    simp [depsOf]

/-- Witness of C9: the cycle scenario built from `lib/c`, which lies on the
cycle `lib/c`, `lib/d`, `lib/c`. -/
theorem deps_excludes_own_path_witness :
    (fetch cycleFacts "lib/c").isSome = true ∧
    Reachable cycleFacts "lib/c" "lib/c" ∧
    importEdge cycleFacts "lib/c" "lib/d" ∧ importEdge cycleFacts "lib/d" "lib/c" ∧
    ∃ res, build cycleFacts "lib/c" = Except.ok res ∧ ∀ r ∈ res.records, r.package ∉ r.deps :=
  ⟨by decide, Relation.ReflTransGen.refl,
    ⟨importing ["lib/d"], by decide, by decide⟩,
    ⟨importing ["lib/c"], by decide, by decide⟩,
    deps_excludes_own_path cycleFacts "lib/c" (by decide)⟩

/-- C10: when the root can be fetched the closure build returns a result in
which the record paths are pairwise distinct and every package reachable
from the root through import edges appears exactly once. -/
theorem reachable_package_recorded_once (facts : FactSource) (root : String)
    (hroot : (fetch facts root).isSome = true) :
    ∃ res, build facts root = Except.ok res ∧
      (recordPaths res.records).Nodup ∧
      ∀ p, Reachable facts root p → (recordPaths res.records).count p = 1 := by
  unfold build
  cases hf : fetch facts root with
  | none => simp [hf] at hroot
  | some f =>
    have hinv := walk_from_root facts root
    refine ⟨_, rfl, ?_, ?_⟩
    · simpa only [recordPaths_map_deps] using hinv.1
    · intro p hp
      have hv := reachable_visited facts root _ hinv p hp
      have hm := hinv.2.1 p hv
      simp only [recordPaths_map_deps]
      exact List.count_eq_one_of_mem hinv.1 hm

/-- Witness of C10: the diamond scenario, where `lib/b` is imported by both
`app` and `lib/a`. -/
theorem reachable_package_recorded_once_witness :
    (fetch diamondFacts "app").isSome = true ∧
    Reachable diamondFacts "app" "lib/b" ∧
    ∃ res, build diamondFacts "app" = Except.ok res ∧
      (recordPaths res.records).Nodup ∧
      ∀ p, Reachable diamondFacts "app" p → (recordPaths res.records).count p = 1 :=
  ⟨by decide,
    Relation.ReflTransGen.single ⟨importing ["lib/a", "lib/b"], by decide, by decide⟩,
    reachable_package_recorded_once diamondFacts "app" (by decide)⟩

end EinsteinDB
